import Mathlib

/-!
Resonator: the signal-processing core of `Source/PluginProcessor.h` and
`Source/PluginProcessor.cpp`.

A shallow embedding of the three DSP primitives (`TwoPoleBandPass`, `EnvelopeFollower`,
`CrestFactor`) and of the per-sample body of `ResonatorAudioProcessor::processBlock`.

Conventions of the embedding.

* A C++ `float` is an element of a linearly ordered field `F`: arithmetic is exact, rounding,
  overflow, infinities and NaN are not modelled. The definitions are polymorphic in `F`, so
  they evaluate on `ℚ` and are reasoned about on `ℝ`.
* A member function that mutates `*this` and returns a value becomes a function from the old
  object to the pair (new object, returned value).
* The C library functions `sinf`, `cosf`, `exp`, `sqrtf`, `powf` are explicit function
  arguments; the theorems instantiate them with `Real.sin`, `Real.cos`, `Real.exp`,
  `Real.sqrt` and real exponentiation.
* Decimal literals of the source (`3.141593f`, `0.5f`, ...) denote their decimal value.
-/

namespace Resonator

/-! ## Data model (PluginProcessor.h) -/

/-- The class `TwoPoleBandPass`: sample rate, coefficients, two-sample input and output
histories. -/
structure TwoPoleBandPass (F : Type) where
  m_sampleRate : Int
  m_a0 : F
  m_a1 : F
  m_a2 : F
  m_b0 : F
  m_b1 : F
  m_b2 : F
  m_x1 : F
  m_x2 : F
  m_y1 : F
  m_y2 : F
deriving DecidableEq

/-- The class `EnvelopeFollower`. -/
structure EnvelopeFollower (F : Type) where
  m_SampleRate : Int
  m_AttackCoef : F
  m_One_Minus_AttackCoef : F
  m_ReleaseCoef : F
  m_One_Minus_ReleaseCoef : F
  m_OutLast : F
  m_Out1Last : F
deriving DecidableEq

/-- The class `CrestFactor`. -/
structure CrestFactor (F : Type) where
  m_SampleRate : Int
  m_Coef : F
  m_PeakLastSQ : F
  m_RMSLastSQ : F
deriving DecidableEq

/-- One channel's chain: entry `channel` of the three member arrays `m_twoPoleBandPass`,
`m_envelopeFollower` and `m_crestFactorCalculator` of `ResonatorAudioProcessor`. -/
structure ChannelState (F : Type) where
  twoPoleBandPass : TwoPoleBandPass F
  envelopeFollower : EnvelopeFollower F
  crestFactorCalculator : CrestFactor F
deriving DecidableEq

/-- The five raw parameter values that `processBlock` loads at its start. -/
structure Parameters (F : Type) where
  frequency : F
  resonance : F
  attack : F
  mix : F
  volume : F
deriving DecidableEq

/-- The block constants that `processBlock` derives before its loops. -/
structure BlockConstants (F : Type) where
  frequency : F
  resonance : F
  thresholdNormalized : F
  mix : F
  volume : F
  mixInverse : F
  resonanceScaled : F
deriving DecidableEq

/-- The local variables of one pass through the sample loop of `processBlock`;
`written` is the value stored back into `channelBuffer[sample]`. -/
structure SampleValues (F : Type) where
  inBandPassFilter : F
  crestFactor : F
  crestFactorNormalized : F
  crestSkewed : F
  attenuatedB : F
  smoothdB : F
  out : F
  written : F
deriving DecidableEq

variable {F : Type} [LinearOrderedField F]

/-! ## TwoPoleBandPass -/

/-- The object after the constructor: the default member initialisers of the header. The
member `m_sampleRate` has no initialiser, so its value is an argument. -/
def TwoPoleBandPass.construct (sampleRate : Int) : TwoPoleBandPass F :=
  { m_sampleRate := sampleRate
    m_a0 := 1, m_a1 := 0, m_a2 := 0
    m_b0 := 0, m_b1 := 0, m_b2 := 1
    m_x1 := 0, m_x2 := 0, m_y1 := 0, m_y2 := 0 }

/-- The member function `TwoPoleBandPass::init`. -/
def TwoPoleBandPass.init (f : TwoPoleBandPass F) (sampleRate : Int) : TwoPoleBandPass F :=
  { f with m_sampleRate := sampleRate }

/-- The member function `TwoPoleBandPass::setCoef`. -/
def TwoPoleBandPass.setCoef (sinf cosf : F → F) (f : TwoPoleBandPass F)
    (frequency resonance : F) : TwoPoleBandPass F :=
  if f.m_sampleRate = 0 then f
  else
    let omega := frequency * (2 * 3.141593 / (f.m_sampleRate : F))
    let sn := sinf omega
    let alpha := sn * (1 - resonance)
    let a0 := 1 + alpha
    let a1 := cosf omega * -2
    let a2 := 1 - alpha
    let b0 := sn * 0.5
    let b1 := 0
    let b2 := -1 * b0
    { f with
      m_a0 := a0
      m_a1 := a1 / a0
      m_a2 := a2 / a0
      m_b0 := b0 / a0
      m_b1 := b1 / a0
      m_b2 := b2 / a0 }

/-- The member function `TwoPoleBandPass::process`. -/
def TwoPoleBandPass.process (f : TwoPoleBandPass F) (x : F) : TwoPoleBandPass F × F :=
  let y := f.m_b0 * x + f.m_b1 * f.m_x1 + f.m_b2 * f.m_x2 - f.m_a1 * f.m_y1 - f.m_a2 * f.m_y2
  ({ f with m_y2 := f.m_y1, m_y1 := y, m_x2 := f.m_x1, m_x1 := x }, y)

/-- Successive calls of `process` on the samples of a list: the final object and the list of
returned values. -/
def TwoPoleBandPass.run (f : TwoPoleBandPass F) : List F → TwoPoleBandPass F × List F
  | [] => (f, [])
  | x :: xs =>
    let r := f.process x
    let rest := TwoPoleBandPass.run r.1 xs
    (rest.1, r.2 :: rest.2)

/-- Sample `n` of the impulse response: the value returned by call `n + 1` of `process` when
the first input sample is 1 and all later ones are 0. -/
def TwoPoleBandPass.impulseResponse (f : TwoPoleBandPass F) : ℕ → F
  | 0 => (f.process 1).2
  | n + 1 => ((f.run (1 :: List.replicate n 0)).1.process 0).2

/-! ## EnvelopeFollower -/

/-- The object after the constructor: the default member initialisers of the header. -/
def EnvelopeFollower.construct : EnvelopeFollower F :=
  { m_SampleRate := 48000
    m_AttackCoef := 0, m_One_Minus_AttackCoef := 0
    m_ReleaseCoef := 0, m_One_Minus_ReleaseCoef := 0
    m_OutLast := 0, m_Out1Last := 0 }

/-- The member function `EnvelopeFollower::init`. -/
def EnvelopeFollower.init (e : EnvelopeFollower F) (sampleRate : Int) : EnvelopeFollower F :=
  { e with m_SampleRate := sampleRate }

/-- The member function `EnvelopeFollower::setCoef`. -/
def EnvelopeFollower.setCoef (exp : F → F) (e : EnvelopeFollower F)
    (attackTimeMs releaseTimeMs : F) : EnvelopeFollower F :=
  let attackCoef := exp (-1000 / (attackTimeMs * (e.m_SampleRate : F)))
  let releaseCoef := exp (-1000 / (releaseTimeMs * (e.m_SampleRate : F)))
  { e with
    m_AttackCoef := attackCoef
    m_ReleaseCoef := releaseCoef
    m_One_Minus_AttackCoef := 1 - attackCoef
    m_One_Minus_ReleaseCoef := 1 - releaseCoef }

/-- The member function `EnvelopeFollower::process`. -/
def EnvelopeFollower.process (e : EnvelopeFollower F) (x : F) : EnvelopeFollower F × F :=
  let inAbs := |x|
  let out1 := max inAbs (e.m_ReleaseCoef * e.m_Out1Last + e.m_One_Minus_ReleaseCoef * inAbs)
  let out := e.m_AttackCoef * e.m_OutLast + e.m_One_Minus_AttackCoef * out1
  ({ e with m_Out1Last := out1, m_OutLast := out }, out)

/-- Successive calls of `process` on the samples of a list. -/
def EnvelopeFollower.run (e : EnvelopeFollower F) : List F → EnvelopeFollower F × List F
  | [] => (e, [])
  | x :: xs =>
    let r := e.process x
    let rest := EnvelopeFollower.run r.1 xs
    (rest.1, r.2 :: rest.2)

/-! ## CrestFactor -/

/-- The object after the constructor: the default member initialisers of the header. -/
def CrestFactor.construct : CrestFactor F :=
  { m_SampleRate := 48000, m_Coef := 0, m_PeakLastSQ := 0, m_RMSLastSQ := 0 }

/-- The member function `CrestFactor::init`. -/
def CrestFactor.init (c : CrestFactor F) (sampleRate : Int) : CrestFactor F :=
  { c with m_SampleRate := sampleRate }

/-- The member function `CrestFactor::setCoef`. -/
def CrestFactor.setCoef (exp : F → F) (c : CrestFactor F) (time : F) : CrestFactor F :=
  { c with m_Coef := exp (-1 / ((c.m_SampleRate : F) * time)) }

/-- The member function `CrestFactor::process`. -/
def CrestFactor.process (sqrtf : F → F) (c : CrestFactor F) (x : F) : CrestFactor F × F :=
  let inSQ := x * x
  let inFactor := (1 - c.m_Coef) * inSQ
  let peak := max inSQ (c.m_Coef * c.m_PeakLastSQ + inFactor)
  let rms := c.m_Coef * c.m_RMSLastSQ + inFactor
  ({ c with m_PeakLastSQ := peak, m_RMSLastSQ := rms }, sqrtf (peak / rms))

/-- Successive calls of `process` on the samples of a list. -/
def CrestFactor.run (sqrtf : F → F) (c : CrestFactor F) : List F → CrestFactor F × List F
  | [] => (c, [])
  | x :: xs =>
    let r := c.process sqrtf x
    let rest := CrestFactor.run sqrtf r.1 xs
    (rest.1, r.2 :: rest.2)

/-! ## ResonatorAudioProcessor::processBlock -/

/-- Modelled from the spec: `juce::Decibels::decibelsToGain` is JUCE library code that is not
among the sources. It is the dB-to-linear conversion `10^(dB/20)`, computed by JUCE as
`pow(10, dB * 0.05)`, with JUCE's floor: the gain is 0 at or below -100 dB. -/
def decibelsToGain (powf : F → F → F) (decibels : F) : F :=
  if decibels > -100 then powf 10 (decibels * 0.05) else 0

/-- The constant `CREST_LIMIT` of `processBlock`. -/
def CREST_LIMIT : F := 50

/-- The constant `ATTENUATION_FACTOR` of `processBlock`. -/
def ATTENUATION_FACTOR : F := -96

/-- The constant `ATTENUATION_LIMIT` of `processBlock`. -/
def ATTENUATION_LIMIT : F := 18

/-- The head of `processBlock`: the parameters and the derived constants. -/
def blockConstants (powf : F → F → F) (p : Parameters F) : BlockConstants F :=
  { frequency := p.frequency
    resonance := p.resonance
    thresholdNormalized := 1 - p.attack
    mix := p.mix
    volume := decibelsToGain powf p.volume
    mixInverse := 1 - p.mix
    resonanceScaled := 0.997 + 0.002 * p.resonance }

/-- The two statements under the comment "Get gain reduction, positive values" in the sample
loop: the value of `attenuatedB` that is passed to `envelopeFollower.process`. -/
def attenuatedB (crestSkewed thresholdNormalized : F) : F :=
  let attenuatedB0 :=
    if crestSkewed ≥ thresholdNormalized then
      (crestSkewed - thresholdNormalized) * ATTENUATION_FACTOR
    else 0
  min |attenuatedB0| ATTENUATION_LIMIT

/-- The body of the sample loop of `processBlock` for one sample `x` of one channel. -/
def processSample (sqrtf : F → F) (powf : F → F → F) (k : BlockConstants F)
    (st : ChannelState F) (x : F) : ChannelState F × SampleValues F :=
  let bp := st.twoPoleBandPass.process x
  let inBandPassFilter := bp.2
  let cf := st.crestFactorCalculator.process sqrtf inBandPassFilter
  let crestFactor := cf.2
  let crestFactorNormalized := min (crestFactor / CREST_LIMIT) 1
  let crestSkewed := powf crestFactorNormalized 0.5
  let att := attenuatedB crestSkewed k.thresholdNormalized
  let ef := st.envelopeFollower.process att
  let smoothdB := ef.2
  let out := inBandPassFilter * decibelsToGain powf smoothdB
  let written := k.volume * (k.mix * out + k.mixInverse * x)
  ({ twoPoleBandPass := bp.1, envelopeFollower := ef.1, crestFactorCalculator := cf.1 },
   { inBandPassFilter := inBandPassFilter
     crestFactor := crestFactor
     crestFactorNormalized := crestFactorNormalized
     crestSkewed := crestSkewed
     attenuatedB := att
     smoothdB := smoothdB
     out := out
     written := written })

/-- The sample loop of `processBlock` over the samples of one channel. -/
def processSamples (sqrtf : F → F) (powf : F → F → F) (k : BlockConstants F)
    (st : ChannelState F) : List F → ChannelState F × List (SampleValues F)
  | [] => (st, [])
  | x :: xs =>
    let r := processSample sqrtf powf k st x
    let rest := processSamples sqrtf powf k r.1 xs
    (rest.1, r.2 :: rest.2)

/-- One pass of the channel loop of `processBlock`: `setCoef` on the channel's filter, then
the sample loop. -/
def processChannel (sinf cosf sqrtf : F → F) (powf : F → F → F) (k : BlockConstants F)
    (st : ChannelState F) (channelBuffer : List F) :
    ChannelState F × List (SampleValues F) :=
  let st1 : ChannelState F :=
    { st with twoPoleBandPass := st.twoPoleBandPass.setCoef sinf cosf k.frequency k.resonance }
  processSamples sqrtf powf k st1 channelBuffer

/-- The function `processBlock`: for every channel its new state and the new contents of its
buffer. -/
def processBlock (sinf cosf sqrtf : F → F) (powf : F → F → F) (p : Parameters F)
    (channels : List (ChannelState F × List F)) : List (ChannelState F × List F) :=
  let k := blockConstants powf p
  channels.map fun c =>
    let r := processChannel sinf cosf sqrtf powf k c.1 c.2
    (r.1, r.2.map SampleValues.written)

/-! ## Theorems -/

/-- With the default coefficients (`b2 = 1`, the other four 0) `process` returns the sample
of two calls ago, whatever the output history. -/
theorem TwoPoleBandPass.run_of_default_coef (f : TwoPoleBandPass F) (xs : List F)
    (ha1 : f.m_a1 = 0) (ha2 : f.m_a2 = 0) (hb0 : f.m_b0 = 0) (hb1 : f.m_b1 = 0)
    (hb2 : f.m_b2 = 1) :
    (f.run xs).2 = (f.m_x2 :: f.m_x1 :: xs).take xs.length := by
  induction xs generalizing f with
  | nil => simp [TwoPoleBandPass.run]
  | cons x xs ih =>
    have h := ih (f.process x).1 ha1 ha2 hb0 hb1 hb2
    simp only [TwoPoleBandPass.run, List.length_cons, List.take_succ_cons]
    rw [h]
    simp [TwoPoleBandPass.process, ha1, ha2, hb0, hb1, hb2]

/-- Claim C1 as stated is false: on a freshly constructed filter `process 1` returns 0 and
not 1. -/
theorem c1_first_call_not_passthrough :
    ((TwoPoleBandPass.construct 48000 : TwoPoleBandPass ℚ).process 1).2 = 0 ∧
    ((TwoPoleBandPass.construct 48000 : TwoPoleBandPass ℚ).process 1).2 ≠ 1 := by
  norm_num [TwoPoleBandPass.process, TwoPoleBandPass.construct]

/-- Claim C1, amended: a freshly constructed filter is a two-sample delay. The first call of
`process` returns 0 for every input sample, and the outputs for the inputs `xs` are
`0, 0, xs` cut to the length of `xs`: the third call returns the first input. -/
theorem c1_fresh_filter_two_sample_delay (sampleRate : Int) (x : F) (xs : List F) :
    ((TwoPoleBandPass.construct sampleRate : TwoPoleBandPass F).process x).2 = 0 ∧
    ((TwoPoleBandPass.construct sampleRate : TwoPoleBandPass F).run xs).2
      = (0 :: 0 :: xs).take xs.length := by
  refine ⟨by simp [TwoPoleBandPass.process, TwoPoleBandPass.construct], ?_⟩
  exact TwoPoleBandPass.run_of_default_coef _ xs rfl rfl rfl rfl rfl

/-- Claim C2: in the sample loop of `processBlock`, with `mix = 0` the value written back is
`volume * in`, and with `mix = 1` it is `volume * out`, where `out` is the band-passed sample
times the dB-to-linear gain of the follower output; for every input sample, every volume and
every state of the channel. -/
theorem c2_mix_boundaries (sqrtf : F → F) (powf : F → F → F) (p : Parameters F)
    (st : ChannelState F) (x : F) :
    (processSample sqrtf powf (blockConstants powf { p with mix := 0 }) st x).2.written
      = decibelsToGain powf p.volume * x ∧
    (processSample sqrtf powf (blockConstants powf { p with mix := 1 }) st x).2.written
      = decibelsToGain powf p.volume *
          (processSample sqrtf powf (blockConstants powf { p with mix := 1 }) st x).2.out ∧
    (processSample sqrtf powf (blockConstants powf { p with mix := 1 }) st x).2.out
      = (st.twoPoleBandPass.process x).2 *
          decibelsToGain powf
            (processSample sqrtf powf (blockConstants powf { p with mix := 1 }) st x).2.smoothdB ∧
    (processSample sqrtf powf (blockConstants powf { p with mix := 1 }) st x).2.smoothdB
      = (st.envelopeFollower.process
          (processSample sqrtf powf (blockConstants powf { p with mix := 1 }) st x).2.attenuatedB).2 := by
  refine ⟨?_, ?_, rfl, rfl⟩ <;> simp [processSample, blockConstants]

/-- Claim C3: the gain-reduction demand that the sample loop passes to
`EnvelopeFollower.process` is `min ((crestSkewed - threshold) * 96) 18` when
`crestSkewed ≥ threshold` and 0 otherwise; it lies in `[0, 18]`. -/
theorem c3_gain_reduction_clamped (crestSkewed thresholdNormalized : F) :
    attenuatedB crestSkewed thresholdNormalized
      = (if crestSkewed ≥ thresholdNormalized then
          min ((crestSkewed - thresholdNormalized) * 96) 18 else 0) ∧
    0 ≤ attenuatedB crestSkewed thresholdNormalized ∧
    attenuatedB crestSkewed thresholdNormalized ≤ 18 ∧
    ∀ (sqrtf : F → F) (powf : F → F → F) (k : BlockConstants F) (st : ChannelState F) (x : F),
      (processSample sqrtf powf k st x).2.attenuatedB
        = attenuatedB (processSample sqrtf powf k st x).2.crestSkewed k.thresholdNormalized ∧
      (processSample sqrtf powf k st x).2.smoothdB
        = (st.envelopeFollower.process (processSample sqrtf powf k st x).2.attenuatedB).2 := by
  refine ⟨?_, ?_, ?_, fun _ _ _ _ _ => ⟨rfl, rfl⟩⟩
  · unfold attenuatedB ATTENUATION_FACTOR ATTENUATION_LIMIT
    by_cases h : crestSkewed ≥ thresholdNormalized
    · have h0 : 0 ≤ crestSkewed - thresholdNormalized := sub_nonneg.mpr h
      have e : |(crestSkewed - thresholdNormalized) * -96|
          = (crestSkewed - thresholdNormalized) * 96 := by
        rw [abs_of_nonpos (by nlinarith)]; ring
      simp only [h, if_true, e]
    · simp [h]
  · unfold attenuatedB ATTENUATION_LIMIT
    exact le_min (abs_nonneg _) (by norm_num)
  · unfold attenuatedB ATTENUATION_LIMIT
    exact min_le_right _ _

/-- Claim C8: with sample rate 0, `setCoef` leaves the object unchanged, all coefficients and
all four history values, for every frequency and resonance; a filter that still holds its
construction defaults keeps `b0 = 0`, `b2 = 1`, `a1 = a2 = 0`. -/
theorem c8_setCoef_noop_at_zero_rate (sinf cosf : F → F) (f : TwoPoleBandPass F)
    (frequency resonance : F) (h : f.m_sampleRate = 0) :
    f.setCoef sinf cosf frequency resonance = f ∧
    (TwoPoleBandPass.construct 0 : TwoPoleBandPass F).setCoef sinf cosf frequency resonance
      = TwoPoleBandPass.construct 0 ∧
    ((TwoPoleBandPass.construct 0 : TwoPoleBandPass F).setCoef sinf cosf frequency
        resonance).m_b0 = 0 ∧
    ((TwoPoleBandPass.construct 0 : TwoPoleBandPass F).setCoef sinf cosf frequency
        resonance).m_b2 = 1 ∧
    ((TwoPoleBandPass.construct 0 : TwoPoleBandPass F).setCoef sinf cosf frequency
        resonance).m_a1 = 0 ∧
    ((TwoPoleBandPass.construct 0 : TwoPoleBandPass F).setCoef sinf cosf frequency
        resonance).m_a2 = 0 := by
  refine ⟨by simp [TwoPoleBandPass.setCoef, h], ?_, ?_, ?_, ?_, ?_⟩ <;>
    simp [TwoPoleBandPass.setCoef, TwoPoleBandPass.construct]

/-- Witness of C8 on the rationals: a filter with sample rate 0, non-default coefficients and
a non-zero history is left unchanged by `setCoef 100 (1/2)`. -/
theorem c8_setCoef_noop_at_zero_rate_witness :
    (TwoPoleBandPass.mk 0 2 3 4 5 6 7 8 9 10 11 : TwoPoleBandPass ℚ).m_sampleRate = 0 ∧
    (TwoPoleBandPass.mk 0 2 3 4 5 6 7 8 9 10 11 : TwoPoleBandPass ℚ).setCoef
        (fun t => t) (fun t => 1 - t) 100 (1 / 2)
      = TwoPoleBandPass.mk 0 2 3 4 5 6 7 8 9 10 11 :=
  ⟨rfl, (c8_setCoef_noop_at_zero_rate (fun t => t) (fun t => 1 - t)
    (TwoPoleBandPass.mk 0 2 3 4 5 6 7 8 9 10 11) 100 (1 / 2) rfl).1⟩

/-! ### CrestFactor: invariants of the running values -/

/-- The value returned by `process` is the new `m_OutLast`. -/
theorem EnvelopeFollower.process_snd (e : EnvelopeFollower F) (x : F) :
    (e.process x).2 = (e.process x).1.m_OutLast := rfl

/-- The outputs of `run` on a concatenation. -/
theorem EnvelopeFollower.envelope_run_append (e : EnvelopeFollower F) (xs ys : List F) :
    (e.run (xs ++ ys)).1 = ((e.run xs).1.run ys).1 ∧
    (e.run (xs ++ ys)).2 = (e.run xs).2 ++ ((e.run xs).1.run ys).2 := by
  induction xs generalizing e with
  | nil => simp [EnvelopeFollower.run]
  | cons x xs ih => simp [EnvelopeFollower.run, (ih (e.process x).1).1, (ih (e.process x).1).2]

/-- The function `run` returns one output per input. -/
theorem EnvelopeFollower.run_length (e : EnvelopeFollower F) (xs : List F) :
    (e.run xs).2.length = xs.length := by
  induction xs generalizing e with
  | nil => simp [EnvelopeFollower.run]
  | cons x xs ih => simp [EnvelopeFollower.run, ih]

/-- The coefficients are not changed by `process`. -/
theorem EnvelopeFollower.envelope_run_coef (e : EnvelopeFollower F) (xs : List F) :
    (e.run xs).1.m_AttackCoef = e.m_AttackCoef ∧
    (e.run xs).1.m_One_Minus_AttackCoef = e.m_One_Minus_AttackCoef ∧
    (e.run xs).1.m_ReleaseCoef = e.m_ReleaseCoef ∧
    (e.run xs).1.m_One_Minus_ReleaseCoef = e.m_One_Minus_ReleaseCoef := by
  induction xs generalizing e with
  | nil => simp [EnvelopeFollower.run]
  | cons x xs ih => simpa [EnvelopeFollower.run, EnvelopeFollower.process] using ih (e.process x).1

/-- Attack phase: from a state whose two running values are at most 1, the outputs for a run
of samples equal to 1 never decrease, starting from the stored output. -/
theorem EnvelopeFollower.run_ones_chain (e : EnvelopeFollower F) (m : ℕ)
    (ha0 : 0 < e.m_AttackCoef) (ha1 : e.m_AttackCoef < 1)
    (hr0 : 0 < e.m_ReleaseCoef)
    (hA : e.m_One_Minus_AttackCoef = 1 - e.m_AttackCoef)
    (hR : e.m_One_Minus_ReleaseCoef = 1 - e.m_ReleaseCoef)
    (ho : e.m_OutLast ≤ 1) (hs : e.m_Out1Last ≤ 1) :
    List.Chain (· ≤ ·) e.m_OutLast (e.run (List.replicate m 1)).2 := by
  induction m generalizing e with
  | zero => simp [EnvelopeFollower.run]
  | succ m ih =>
    have hmax : max (1 : F) (e.m_ReleaseCoef * e.m_Out1Last + (1 - e.m_ReleaseCoef)) = 1 := by
      apply max_eq_left
      have := mul_le_mul_of_nonneg_left hs hr0.le
      linarith
    have hout : (e.process 1).2 = e.m_AttackCoef * e.m_OutLast + (1 - e.m_AttackCoef) := by
      simp only [EnvelopeFollower.process, hA, hR, abs_one, mul_one, hmax]
    have hstage : (e.process 1).1.m_Out1Last = 1 := by
      simp only [EnvelopeFollower.process, hR, abs_one, mul_one, hmax]
    have hlast : (e.process 1).1.m_OutLast
        = e.m_AttackCoef * e.m_OutLast + (1 - e.m_AttackCoef) := hout
    have hmul := mul_le_mul_of_nonneg_left ho ha0.le
    have hmul2 : (1 - e.m_AttackCoef) * e.m_OutLast ≤ (1 - e.m_AttackCoef) * 1 :=
      mul_le_mul_of_nonneg_left ho (sub_pos.mpr ha1).le
    simp only [List.replicate_succ, EnvelopeFollower.run, List.chain_cons]
    constructor
    · rw [hout]; linarith
    · have h := ih (e.process 1).1 ha0 ha1 hr0 hA hR (by rw [hlast]; linarith) (by rw [hstage])
      rw [hlast] at h
      rw [hout]
      exact h

/-- Closed form of the attack phase: after `m` samples equal to 1 from the fresh state the
stored output is `1 - attackCoef ^ m` and the first stage holds at most 1, and exactly the
input 1 once a sample has been processed. -/
theorem EnvelopeFollower.run_ones_state (e : EnvelopeFollower F) (m : ℕ)
    (hr0 : 0 < e.m_ReleaseCoef)
    (hA : e.m_One_Minus_AttackCoef = 1 - e.m_AttackCoef)
    (hR : e.m_One_Minus_ReleaseCoef = 1 - e.m_ReleaseCoef)
    (ho : e.m_OutLast = 0) (hs : e.m_Out1Last = 0) :
    (e.run (List.replicate m 1)).1.m_OutLast = 1 - e.m_AttackCoef ^ m ∧
    (e.run (List.replicate m 1)).1.m_Out1Last = (if m = 0 then 0 else 1) := by
  induction m with
  | zero => simp [EnvelopeFollower.run, ho, hs]
  | succ m ih =>
    obtain ⟨h1, h2⟩ := ih
    obtain ⟨c1, c2, c3, c4⟩ := EnvelopeFollower.envelope_run_coef e (List.replicate m 1)
    have hs1 : (e.run (List.replicate m 1)).1.m_Out1Last ≤ 1 := by
      rw [h2]; split <;> norm_num
    have hmax : max (1 : F) (e.m_ReleaseCoef * (e.run (List.replicate m 1)).1.m_Out1Last
        + (1 - e.m_ReleaseCoef)) = 1 := by
      apply max_eq_left
      have := mul_le_mul_of_nonneg_left hs1 hr0.le
      linarith
    rw [List.replicate_succ', (EnvelopeFollower.envelope_run_append e _ _).1]
    simp only [EnvelopeFollower.run, EnvelopeFollower.process, c1, c2, c3, c4, hA, hR, h1,
      abs_one, mul_one, hmax]
    constructor
    · ring
    · simp

/-- Release phase: from a state whose stored output is at least `releaseCoef` times the
first-stage value, the outputs for a run of samples equal to 0 never increase, starting from
the stored output. -/
theorem EnvelopeFollower.run_zeros_chain (e : EnvelopeFollower F) (j : ℕ)
    (ha0 : 0 < e.m_AttackCoef) (ha1 : e.m_AttackCoef < 1)
    (hr0 : 0 < e.m_ReleaseCoef) (hr1 : e.m_ReleaseCoef < 1)
    (hA : e.m_One_Minus_AttackCoef = 1 - e.m_AttackCoef)
    (hs : 0 ≤ e.m_Out1Last) (ho : e.m_ReleaseCoef * e.m_Out1Last ≤ e.m_OutLast) :
    List.Chain (· ≥ ·) e.m_OutLast (e.run (List.replicate j 0)).2 := by
  induction j generalizing e with
  | zero => simp [EnvelopeFollower.run]
  | succ j ih =>
    have hrs : 0 ≤ e.m_ReleaseCoef * e.m_Out1Last := mul_nonneg hr0.le hs
    have hmax : max (0 : F) (e.m_ReleaseCoef * e.m_Out1Last + e.m_One_Minus_ReleaseCoef * 0)
        = e.m_ReleaseCoef * e.m_Out1Last := by
      rw [mul_zero, add_zero]; exact max_eq_right hrs
    have hstage : (e.process 0).1.m_Out1Last = e.m_ReleaseCoef * e.m_Out1Last := by
      simp only [EnvelopeFollower.process, abs_zero, hmax]
    have hout : (e.process 0).2 = e.m_AttackCoef * e.m_OutLast
        + (1 - e.m_AttackCoef) * (e.m_ReleaseCoef * e.m_Out1Last) := by
      simp only [EnvelopeFollower.process, abs_zero, hmax, hA]
    have hlast : (e.process 0).1.m_OutLast = e.m_AttackCoef * e.m_OutLast
        + (1 - e.m_AttackCoef) * (e.m_ReleaseCoef * e.m_Out1Last) := hout
    have h1a : 0 < 1 - e.m_AttackCoef := sub_pos.mpr ha1
    have hm1 := mul_le_mul_of_nonneg_left ho h1a.le
    have hm2 := mul_le_mul_of_nonneg_left ho ha0.le
    have hm3 : e.m_ReleaseCoef * (e.m_ReleaseCoef * e.m_Out1Last)
        ≤ 1 * (e.m_ReleaseCoef * e.m_Out1Last) :=
      mul_le_mul_of_nonneg_right hr1.le hrs
    simp only [List.replicate_succ, EnvelopeFollower.run, List.chain_cons]
    constructor
    · show e.m_OutLast ≥ (e.process 0).2
      rw [hout]; linarith
    · have hcoef : (e.process 0).1.m_ReleaseCoef = e.m_ReleaseCoef := rfl
      have h := ih (e.process 0).1 ha0 ha1 hr0 hr1 hA (by rw [hstage]; exact hrs)
        (by rw [hstage, hlast, hcoef]; linarith)
      rw [hlast] at h
      rw [hout]
      exact h

/-- The coefficients that `setCoef` computes with the real exponential lie in (0,1) when
`attackTimeMs * sampleRate` and `releaseTimeMs * sampleRate` are positive, and the stored
complements are `1 - coefficient`; the running values are not touched. -/
theorem EnvelopeFollower.envelope_setCoef_range (e : EnvelopeFollower ℝ) (attackTimeMs releaseTimeMs : ℝ)
    (hat : 0 < attackTimeMs * (e.m_SampleRate : ℝ))
    (hrt : 0 < releaseTimeMs * (e.m_SampleRate : ℝ)) :
    (0 < (e.setCoef Real.exp attackTimeMs releaseTimeMs).m_AttackCoef ∧
      (e.setCoef Real.exp attackTimeMs releaseTimeMs).m_AttackCoef < 1) ∧
    (0 < (e.setCoef Real.exp attackTimeMs releaseTimeMs).m_ReleaseCoef ∧
      (e.setCoef Real.exp attackTimeMs releaseTimeMs).m_ReleaseCoef < 1) ∧
    (e.setCoef Real.exp attackTimeMs releaseTimeMs).m_One_Minus_AttackCoef
      = 1 - (e.setCoef Real.exp attackTimeMs releaseTimeMs).m_AttackCoef ∧
    (e.setCoef Real.exp attackTimeMs releaseTimeMs).m_One_Minus_ReleaseCoef
      = 1 - (e.setCoef Real.exp attackTimeMs releaseTimeMs).m_ReleaseCoef ∧
    (e.setCoef Real.exp attackTimeMs releaseTimeMs).m_OutLast = e.m_OutLast ∧
    (e.setCoef Real.exp attackTimeMs releaseTimeMs).m_Out1Last = e.m_Out1Last := by
  have h1 : -1000 / (attackTimeMs * (e.m_SampleRate : ℝ)) < 0 :=
    div_neg_of_neg_of_pos (by norm_num) hat
  have h2 : -1000 / (releaseTimeMs * (e.m_SampleRate : ℝ)) < 0 :=
    div_neg_of_neg_of_pos (by norm_num) hrt
  exact ⟨⟨Real.exp_pos _, Real.exp_lt_one_iff.mpr h1⟩, ⟨Real.exp_pos _, Real.exp_lt_one_iff.mpr h2⟩,
    rfl, rfl, rfl, rfl⟩

/-- The coefficient that `CrestFactor.setCoef` computes with the real exponential lies in
(0,1) when `sampleRate * time` is positive; the running values are not touched. -/
theorem CrestFactor.crest_setCoef_range (c : CrestFactor ℝ) (time : ℝ)
    (ht : 0 < (c.m_SampleRate : ℝ) * time) :
    0 < (c.setCoef Real.exp time).m_Coef ∧ (c.setCoef Real.exp time).m_Coef < 1 ∧
    (c.setCoef Real.exp time).m_PeakLastSQ = c.m_PeakLastSQ ∧
    (c.setCoef Real.exp time).m_RMSLastSQ = c.m_RMSLastSQ :=
  ⟨Real.exp_pos _, Real.exp_lt_one_iff.mpr (div_neg_of_neg_of_pos (by norm_num) ht), rfl, rfl⟩

/-- Claim C5 as stated is false: with attack and release coefficients 9/10 and the step
input `1, 0, 0` the outputs are `1/10, 9/50, 243/1000`; they keep rising after the input has
stepped back to 0. -/
theorem c5_release_not_monotone :
    ((EnvelopeFollower.mk 48000 (9 / 10) (1 / 10) (9 / 10) (1 / 10) 0 0 :
        EnvelopeFollower ℚ).run (List.replicate 1 1 ++ List.replicate 2 0)).2
      = [1 / 10, 9 / 50, 243 / 1000] ∧
    ¬ List.Chain' (· ≥ ·)
      (((EnvelopeFollower.mk 48000 (9 / 10) (1 / 10) (9 / 10) (1 / 10) 0 0 :
        EnvelopeFollower ℚ).run (List.replicate 1 1 ++ List.replicate 2 0)).2.drop (1 - 1)) ∧
    ¬ List.Chain' (· ≥ ·)
      (((EnvelopeFollower.mk 48000 (9 / 10) (1 / 10) (9 / 10) (1 / 10) 0 0 :
        EnvelopeFollower ℚ).run (List.replicate 1 1 ++ List.replicate 2 0)).2.drop 1) := by
  have h : ((EnvelopeFollower.mk 48000 (9 / 10) (1 / 10) (9 / 10) (1 / 10) 0 0 :
        EnvelopeFollower ℚ).run (List.replicate 1 1 ++ List.replicate 2 0)).2
      = [1 / 10, 9 / 50, 243 / 1000] := by
    norm_num [EnvelopeFollower.run, EnvelopeFollower.process, List.replicate]
  rw [h]
  norm_num

/-- Claim C5, amended: for a fresh `EnvelopeFollower` with attack and release coefficients in
(0,1), fed the step input that is 1 for `m` samples and then 0 for `j` samples, the outputs
never decrease while the input is 1; and when the output has risen to at least the release
coefficient by the time the input steps back (`releaseCoef ≤ 1 - attackCoef ^ m`), the
outputs never increase from the last sample with input 1 on. -/
theorem c5_step_response (e : EnvelopeFollower F) (m j : ℕ)
    (ha0 : 0 < e.m_AttackCoef) (ha1 : e.m_AttackCoef < 1)
    (hr0 : 0 < e.m_ReleaseCoef) (hr1 : e.m_ReleaseCoef < 1)
    (hA : e.m_One_Minus_AttackCoef = 1 - e.m_AttackCoef)
    (hR : e.m_One_Minus_ReleaseCoef = 1 - e.m_ReleaseCoef)
    (ho : e.m_OutLast = 0) (hs : e.m_Out1Last = 0) :
    List.Chain' (· ≤ ·) ((e.run (List.replicate m 1 ++ List.replicate j 0)).2.take m) ∧
    (e.m_ReleaseCoef ≤ 1 - e.m_AttackCoef ^ m →
      List.Chain' (· ≥ ·)
        ((e.run (List.replicate m 1 ++ List.replicate j 0)).2.drop (m - 1))) := by
  have hlen : (e.run (List.replicate m 1)).2.length = m := by
    rw [EnvelopeFollower.run_length, List.length_replicate]
  constructor
  · rw [(EnvelopeFollower.envelope_run_append e _ _).2, List.take_left' hlen]
    have h := EnvelopeFollower.run_ones_chain e m ha0 ha1 hr0 hA hR
      (by rw [ho]; norm_num) (by rw [hs]; norm_num)
    exact List.Chain'.tail (show List.Chain' (· ≤ ·)
      (e.m_OutLast :: (e.run (List.replicate m 1)).2) from h)
  · intro hcond
    cases m with
    | zero =>
      exfalso
      rw [pow_zero, sub_self] at hcond
      exact absurd hr0 (not_lt.mpr hcond)
    | succ n =>
      obtain ⟨s1, s2⟩ := EnvelopeFollower.run_ones_state e (n + 1) hr0 hA hR ho hs
      obtain ⟨c1, c2, c3, c4⟩ := EnvelopeFollower.envelope_run_coef e (List.replicate (n + 1) 1)
      have hz := EnvelopeFollower.run_zeros_chain (e.run (List.replicate (n + 1) 1)).1 j
        (by rw [c1]; exact ha0) (by rw [c1]; exact ha1) (by rw [c3]; exact hr0)
        (by rw [c3]; exact hr1) (by rw [c1, c2]; exact hA)
        (by rw [s2]; simp) (by rw [s2, s1, c3]; simpa using hcond)
      have hlen2 : (e.run (List.replicate n 1)).2.length = n := by
        rw [EnvelopeFollower.run_length, List.length_replicate]
      have hsplit : (e.run (List.replicate (n + 1) 1)).2
          = (e.run (List.replicate n 1)).2 ++ [(e.run (List.replicate (n + 1) 1)).1.m_OutLast] := by
        rw [List.replicate_succ', (EnvelopeFollower.envelope_run_append e _ _).2,
          (EnvelopeFollower.envelope_run_append e _ _).1]
        rfl
      rw [(EnvelopeFollower.envelope_run_append e _ _).2, hsplit, Nat.add_sub_cancel, List.append_assoc,
        List.drop_left' hlen2]
      exact hz

/-- Witness of C5: attack coefficient 1/2, release coefficient 1/4, the step input `1, 1, 0`;
here `1/4 ≤ 1 - (1/2)^2`, so the outputs never increase from the second sample on. -/
theorem c5_step_response_witness :
    List.Chain' (· ≥ ·)
      (((EnvelopeFollower.mk 48000 (1 / 2) (1 / 2) (1 / 4) (3 / 4) 0 0 :
        EnvelopeFollower ℚ).run (List.replicate 2 1 ++ List.replicate 1 0)).2.drop (2 - 1)) :=
  (c5_step_response (EnvelopeFollower.mk 48000 (1 / 2) (1 / 2) (1 / 4) (3 / 4) 0 0) 2 1
    (by norm_num) (by norm_num) (by norm_num) (by norm_num) (by norm_num) (by norm_num)
    rfl rfl).2 (by norm_num)

/-! ### The follower output in the pipeline -/

/-- The state and the outputs of `run` on a concatenation. -/
theorem TwoPoleBandPass.filter_run_append (f : TwoPoleBandPass F) (xs ys : List F) :
    (f.run (xs ++ ys)).1 = ((f.run xs).1.run ys).1 ∧
    (f.run (xs ++ ys)).2 = (f.run xs).2 ++ ((f.run xs).1.run ys).2 := by
  induction xs generalizing f with
  | nil => simp [TwoPoleBandPass.run]
  | cons x xs ih => simp [TwoPoleBandPass.run, (ih (f.process x).1).1, (ih (f.process x).1).2]

/-- The outputs of `run` on the impulse `1, 0, ..., 0` of length `n + 1` are the samples
`0, ..., n` of `impulseResponse`. -/
theorem TwoPoleBandPass.run_impulse_outputs (g : TwoPoleBandPass F) (n : ℕ) :
    (g.run (1 :: List.replicate n 0)).2 = (List.range (n + 1)).map g.impulseResponse := by
  induction n with
  | zero => rfl
  | succ n ih =>
    have e : (1 : F) :: List.replicate (n + 1) 0 = (1 :: List.replicate n 0) ++ [0] := by
      rw [List.cons_append, ← List.replicate_succ']
    rw [e, (TwoPoleBandPass.filter_run_append g _ _).2, ih, List.range_succ (n + 1),
      List.map_append]
    simp [TwoPoleBandPass.run, TwoPoleBandPass.impulseResponse]

end Resonator
